import Mathlib

/-!
Verification of the TrackMe authentication and input-validation core.

The JavaScript/TypeScript source (src/lib/auth.ts, src/lib/validation.ts,
src/lib/types.ts, src/routes/auth.tsx) is shallowly embedded here:

* a JS string is a `List Nat` of UTF-16 code units;
* a JS runtime value reaching a validator is a `JSVal`;
* `btoa`/`atob` follow the HTML forgiving-base64 algorithms, returning
  `Option` where the JS functions throw;
* the external clock (`Date.now()`) and nonce (`Math.random().toString(36)`)
  are explicit parameters, as the spec treats them as external interfaces.
-/

namespace TrackMe

/-- Code units of a Lean string literal, used to write JS strings readably. -/
def jstr (s : String) : List Nat := s.toList.map Char.toNat

/-- JS `WhiteSpace ∪ LineTerminator` (the set used by `String.prototype.trim`
and by `parseInt`'s leading-whitespace skip). -/
def jsWs (c : Nat) : Bool :=
  c = 9 || c = 10 || c = 11 || c = 12 || c = 13 || c = 32 || c = 160 ||
  c = 0x1680 || (0x2000 ≤ c && c ≤ 0x200A) || c = 0x2028 || c = 0x2029 ||
  c = 0x202F || c = 0x205F || c = 0x3000 || c = 0xFEFF

/-- ASCII whitespace, the set stripped by forgiving-base64 decode (`atob`). -/
def asciiWs (c : Nat) : Bool :=
  c = 9 || c = 10 || c = 12 || c = 13 || c = 32

/-- `String.prototype.trim`. -/
def jsTrim (s : List Nat) : List Nat :=
  ((s.dropWhile jsWs).reverse.dropWhile jsWs).reverse

/-- ASCII decimal digit. -/
def isDigitCode (c : Nat) : Bool := 48 ≤ c && c ≤ 57

/-- Value of a run of ASCII decimal digits. -/
def digitsVal (ds : List Nat) : Nat :=
  ds.foldl (fun a d => a * 10 + (d - 48)) 0

/-- Decimal digits, fuel-based so that the kernel can evaluate it; `fuel`
bounds the recursion depth and any `fuel > n` is enough. -/
def natDigitsAux (fuel n : Nat) : List Nat :=
  match fuel with
  | 0 => []
  | fuel + 1 =>
    if n < 10 then [48 + n] else natDigitsAux fuel (n / 10) ++ [48 + n % 10]

/-- Decimal rendering of a natural number as ASCII code units
(the embedding of JS number-to-string for the nonnegative integers
that appear as token timestamps). -/
def natDigits (n : Nat) : List Nat := natDigitsAux (n + 1) n

/-- Longest leading digit run, `none` if empty: the digit-consuming phase of
JS `parseInt`. -/
def parseDigitRun (s : List Nat) : Option Nat :=
  let ds := s.takeWhile isDigitCode
  if ds.isEmpty then none else some (digitsVal ds)

/-- JS `parseInt(s, 10)`: skip leading whitespace, optional sign, then the
longest digit run; `NaN` (here `none`) when no digit follows. -/
def jsParseInt (s : List Nat) : Option Int :=
  let t := s.dropWhile jsWs
  match t with
  | [] => none
  | c :: rest =>
    if c = 43 then (parseDigitRun rest).map Int.ofNat
    else if c = 45 then (parseDigitRun rest).map (fun n => -(n : Int))
    else (parseDigitRun t).map Int.ofNat

/-- JS `String.prototype.split(':')`. -/
def splitOnColon : List Nat → List (List Nat)
  | [] => [[]]
  | c :: rest =>
    if c = 58 then [] :: splitOnColon rest
    else
      match splitOnColon rest with
      | g :: gs => (c :: g) :: gs
      | [] => [[c]]

/-! ## Base64 (`btoa` / `atob`, HTML forgiving-base64) -/

/-- The base64 alphabet as code units: A-Z, a-z, 0-9, +, /. -/
def b64alphabet : List Nat :=
  jstr "ABCDEFGHIJKLMNOPQRSTUVWXYZabcdefghijklmnopqrstuvwxyz0123456789+/"

/-- Code unit of the base64 digit for a sextet. -/
def b64char (s : Nat) : Nat := b64alphabet.getD s 0

/-- Index of a code unit in the base64 alphabet. -/
def b64index (c : Nat) : Option Nat := b64alphabet.findIdx? (· == c)

/-- Bytes to sextets, 3 bytes to 4 sextets, with the standard short tails. -/
def encodeSextets : List Nat → List Nat
  | a :: b :: c :: rest =>
    a / 4 :: ((a % 4) * 16 + b / 16) :: ((b % 16) * 4 + c / 64) :: c % 64 ::
      encodeSextets rest
  | [a, b] => [a / 4, (a % 4) * 16 + b / 16, (b % 16) * 4]
  | [a] => [a / 4, (a % 4) * 16]
  | [] => []

/-- Sextets back to bytes; a lone trailing sextet is ruled out by the
length-mod-4 guard in `atob` and decodes to nothing here. -/
def decodeSextets : List Nat → List Nat
  | a :: b :: c :: d :: rest =>
    (a * 4 + b / 16) :: ((b % 16) * 16 + c / 4) :: ((c % 4) * 64 + d) ::
      decodeSextets rest
  | [a, b] => [a * 4 + b / 16]
  | [a, b, c] => [a * 4 + b / 16, (b % 16) * 16 + c / 4]
  | _ => []

/-- Padding appended by `btoa` for a payload of `n` bytes. -/
def b64pad (n : Nat) : List Nat :=
  match n % 3 with
  | 1 => [61, 61]
  | 2 => [61]
  | _ => []

/-- JS `btoa`: `none` when some code unit is ≥ 256 (the JS function throws),
otherwise the base64 digits plus `=` padding. -/
def btoa (bytes : List Nat) : Option (List Nat) :=
  if bytes.all (· < 256) then
    some ((encodeSextets bytes).map b64char ++ b64pad bytes.length)
  else none

/-- Remove one or two trailing `=` (forgiving-base64 step 2). -/
def dropTrailingEq (s : List Nat) : List Nat :=
  match s.reverse with
  | c1 :: rest =>
    if c1 = 61 then
      match rest with
      | c2 :: rest2 => if c2 = 61 then rest2.reverse else rest.reverse
      | [] => []
    else s
  | [] => s

/-- Map code units to sextets, failing on any non-alphabet unit. -/
def toSextets : List Nat → Option (List Nat)
  | [] => some []
  | c :: rest =>
    match b64index c, toSextets rest with
    | some v, some vs => some (v :: vs)
    | _, _ => none

/-- Forgiving-base64 step 2: trailing `=` are stripped only when the
whitespace-free length is a multiple of 4. -/
def stripPad (t : List Nat) : List Nat :=
  if t.length % 4 = 0 then dropTrailingEq t else t

/-- JS `atob` (forgiving-base64 decode): strip ASCII whitespace, strip up to
two trailing `=` when the length is a multiple of 4, reject length ≡ 1 mod 4
and non-alphabet units, then assemble bytes. -/
def atob (s : List Nat) : Option (List Nat) :=
  if (stripPad (s.filter (fun c => !asciiWs c))).length % 4 = 1 then none
  else
    match toSextets (stripPad (s.filter (fun c => !asciiWs c))) with
    | none => none
    | some sx => some (decodeSextets sx)

/-! ## Configuration (src/lib/types.ts) -/

structure Config where
  TOKEN_EXPIRY_DAYS : Nat
  HISTORY_DAYS : Nat
  MAX_NOTE_LENGTH : Nat
  MAX_SYMPTOM_NAME_LENGTH : Nat

def CONFIG : Config :=
  { TOKEN_EXPIRY_DAYS := 7
    HISTORY_DAYS := 14
    MAX_NOTE_LENGTH := 1000
    MAX_SYMPTOM_NAME_LENGTH := 100 }

/-! ## JS runtime values reaching the validators -/

/-- The JS values a validator can receive (`unknown` in the source).
`vNum` restricts JS numbers to the integers, which is all the claims need;
`vObj` stands for any other (truthy, non-string) object such as a `File`. -/
inductive JSVal where
  | vNull
  | vUndef
  | vBool (b : Bool)
  | vNum (n : Int)
  | vNaN
  | vStr (s : List Nat)
  | vObj
deriving DecidableEq, Repr

/-- JS truthiness. -/
def truthy : JSVal → Bool
  | .vNull | .vUndef | .vNaN => false
  | .vBool b => b
  | .vNum n => n ≠ 0
  | .vStr s => s ≠ []
  | .vObj => true

/-- Whether a JS value is a string. -/
def isString : JSVal → Bool
  | .vStr _ => true
  | _ => false

/-- JS `String(v)` on the values of our model. -/
def jsToString : JSVal → List Nat
  | .vNull => jstr "null"
  | .vUndef => jstr "undefined"
  | .vBool true => jstr "true"
  | .vBool false => jstr "false"
  | .vNum n => if n < 0 then 45 :: natDigits n.natAbs else natDigits n.toNat
  | .vNaN => jstr "NaN"
  | .vStr s => s
  | .vObj => jstr "[object Object]"

/-! ## Validators (src/lib/validation.ts) -/

structure ValidationError where
  message : String
deriving DecidableEq, Repr

instance {e a : Type} [DecidableEq e] [DecidableEq a] :
    DecidableEq (Except e a) := fun x y =>
  match x, y with
  | .error v, .error w =>
    if h : v = w then .isTrue (congrArg Except.error h)
    else .isFalse (fun hc => h (Except.error.inj hc))
  | .ok v, .ok w =>
    if h : v = w then .isTrue (congrArg Except.ok h)
    else .isFalse (fun hc => h (Except.ok.inj hc))
  | .error _, .ok _ => .isFalse (fun hc => Except.noConfusion hc)
  | .ok _, .error _ => .isFalse (fun hc => Except.noConfusion hc)

/-- `sanitizeString(input, maxLength)` on a string input: strip NUL bytes,
trim, then truncate to `maxLength`. -/
def sanitizeString (input : List Nat) (maxLength : Nat) : List Nat :=
  let sanitized := jsTrim (input.filter (· != 0))
  sanitized.take maxLength

structure Creds where
  username : List Nat
  password : List Nat
deriving DecidableEq, Repr

/-- `validateCredentials(username, password)`. -/
def validateCredentials (username password : JSVal) :
    Except ValidationError Creds :=
  if !truthy username || !truthy password then
    .error ⟨"Username and password are required"⟩
  else
    match username, password with
    | .vStr u, .vStr p =>
      if u.length > 100 || p.length > 100 then
        .error ⟨"Credentials too long"⟩
      else
        .ok ⟨sanitizeString u 100, sanitizeString p 100⟩
    | _, _ => .error ⟨"Invalid credentials format"⟩

/-- Word character of the JS regex `\b` boundary and `\w` class. -/
def isWordChar (c : Nat) : Bool :=
  (48 ≤ c && c ≤ 57) || (65 ≤ c && c ≤ 90) || (97 ≤ c && c ≤ 122) || c = 95

/-- Case-insensitive match of an uppercase keyword against a prefix of `s`
(the non-Unicode `i` flag folds only the ASCII letters). -/
def ciStartsWith : List Nat → List Nat → Bool
  | [], _ => true
  | _ :: _, [] => false
  | k :: ks, c :: cs => (c == k || c == k + 32) && ciStartsWith ks cs

/-- The SQL keywords of the pattern in `validateSymptomName`. -/
def sqlKeywords : List (List Nat) :=
  [jstr "SELECT", jstr "INSERT", jstr "UPDATE", jstr "DELETE",
   jstr "DROP", jstr "UNION", jstr "EXEC", jstr "EXECUTE"]

/-- `\b` holds before position `i` of `s` for a match starting with a word
character: true at the start or after a non-word unit. -/
def boundaryBefore (s : List Nat) (i : Nat) : Bool :=
  i = 0 || !(isWordChar (s.getD (i - 1) 0))

/-- `\b` holds after position `i` (exclusive end): true at the end or before
a non-word unit. -/
def boundaryAfter (s : List Nat) (i : Nat) : Bool :=
  s.length ≤ i || !(isWordChar (s.getD i 0))

/-- `/(\b(SELECT|INSERT|UPDATE|DELETE|DROP|UNION|EXEC|EXECUTE)\b)/i.test s`:
some keyword occurs at some position with word boundaries on both sides. -/
def sqlPatternTest (s : List Nat) : Bool :=
  (List.range (s.length + 1)).any fun i =>
    sqlKeywords.any fun kw =>
      ciStartsWith kw (s.drop i) && boundaryBefore s i &&
        boundaryAfter s (i + kw.length)

/-- `validateSymptomName(name)`; the source's local `sanitized` constant is
inlined as `sanitizeString s CONFIG.MAX_SYMPTOM_NAME_LENGTH`. -/
def validateSymptomName (name : JSVal) : Except ValidationError (List Nat) :=
  if !truthy name || !isString name then
    .error ⟨"Symptom name is required"⟩
  else
    match name with
    | .vStr s =>
      if sanitizeString s CONFIG.MAX_SYMPTOM_NAME_LENGTH = [] then
        .error ⟨"Symptom name cannot be empty"⟩
      else if sqlPatternTest (sanitizeString s CONFIG.MAX_SYMPTOM_NAME_LENGTH)
          then
        .error ⟨"Invalid characters in symptom name"⟩
      else .ok (sanitizeString s CONFIG.MAX_SYMPTOM_NAME_LENGTH)
    | _ => .error ⟨"Symptom name is required"⟩

/-- `validateNotes(notes)`. -/
def validateNotes (notes : JSVal) :
    Except ValidationError (Option (List Nat)) :=
  if !truthy notes then .ok none
  else
    match notes with
    | .vStr s => .ok (some (sanitizeString s CONFIG.MAX_NOTE_LENGTH))
    | _ => .error ⟨"Notes must be a string"⟩

/-- `validateId(id)`. -/
def validateId (id : JSVal) : Except ValidationError Int :=
  match jsParseInt (jsToString id) with
  | none => .error ⟨"Invalid ID"⟩
  | some n => if n < 1 then .error ⟨"Invalid ID"⟩ else .ok n

/-! ## Session token codec (src/lib/auth.ts) -/

/-- `generateToken(username, password)`: the clock reading (`Date.now()`)
and the nonce (`Math.random().toString(36).substring(2, 15)`) are the
external clock and randomness, passed explicitly. -/
def generateToken (username password : List Nat) (ts : Nat)
    (rand : List Nat) : Option (List Nat) :=
  btoa (username ++ 58 :: (password ++ 58 :: (natDigits ts ++ 58 :: rand)))

/-- `CONFIG.TOKEN_EXPIRY_DAYS * 24 * 60 * 60 * 1000` as a natural. -/
def maxAgeMillis : Nat := CONFIG.TOKEN_EXPIRY_DAYS * 24 * 60 * 60 * 1000

/-- `validateToken(token, validUser, validPassword)` with the clock reading
(`Date.now()`) passed explicitly; the `try/catch` around `atob` shows up as
the `none` branch. The source's local constants (`parts`, `username`,
`password`, `timestamp`, `tokenAge`, `maxAge`) are inlined:
`username`/`password`/`timestamp` are fields 0/1/2 of the split. -/
def validateToken (token validUser validPassword : List Nat)
    (now : Nat) : Bool :=
  if token = [] || decide (token.length > 500) then false
  else
    match atob token with
    | none => false
    | some decoded =>
      if (splitOnColon decoded).length < 3 then false
      else
        if (splitOnColon decoded).getD 0 [] ≠ validUser ||
           (splitOnColon decoded).getD 1 [] ≠ validPassword then false
        else
          match jsParseInt ((splitOnColon decoded).getD 2 []) with
          | none => false
          | some ts =>
            if (now : Int) - ts < 0 ||
               (now : Int) - ts >
                 (CONFIG.TOKEN_EXPIRY_DAYS : Int) * 24 * 60 * 60 * 1000
            then false
            else true

/-- The verify path exactly as the specification enumerates it: the same
checks as `validateToken`, written as a cascade in the spec's order (empty;
over-long; base64; part count; credential claim; timestamp). Used to settle
the claim that the source short-circuits these checks in exactly that
order. -/
def validateTokenSpec (token validUser validPassword : List Nat)
    (now : Nat) : Bool :=
  if token = [] then false
  else if 500 < token.length then false
  else
    match atob token with
    | none => false
    | some decoded =>
      let parts := splitOnColon decoded
      if parts.length < 3 then false
      else if parts.getD 0 [] ≠ validUser then false
      else if parts.getD 1 [] ≠ validPassword then false
      else
        match jsParseInt (parts.getD 2 []) with
        | none => false
        | some ts =>
          if (now : Int) - ts < 0 then false
          else if (maxAgeMillis : Int) < (now : Int) - ts then false
          else true

/-! ## Login route (src/routes/auth.tsx, POST /api/login) -/

inductive LoginBody where
  | success
  | invalidCreds
  | validationFailed (message : String)
deriving DecidableEq, Repr

/-- Observable outcome of the login handler: the artificial delay imposed
before responding, the HTTP status, and the response payload. -/
structure LoginResponse where
  delayMs : Nat
  status : Nat
  body : LoginBody
deriving DecidableEq, Repr

/-- The `POST /api/login` handler: validate the submitted fields, compare
against the configured reference pair, and on a credential mismatch wait
100 ms before answering 401; a `ValidationError` is answered 400 with the
field-specific message and no delay. -/
def loginPost (username password : JSVal) (envUser envPassword : List Nat) :
    LoginResponse :=
  match validateCredentials username password with
  | .error e => ⟨0, 400, .validationFailed e.message⟩
  | .ok creds =>
    if creds.username = envUser ∧ creds.password = envPassword then
      ⟨0, 200, .success⟩
    else
      ⟨100, 401, .invalidCreds⟩

/-- A string with no leading and no trailing whitespace (both edges, when
present, are non-whitespace units). -/
def noEdgeWs (s : List Nat) : Bool :=
  (match s.head? with | some c => !jsWs c | none => true) &&
  (match s.getLast? with | some c => !jsWs c | none => true)

/-- The shape `validateCredentials` guarantees for each returned field:
free of NUL bytes, trimmed at both edges, at most 100 units long. -/
def credOutOk (s : List Nat) : Bool :=
  s.all (· != 0) && noEdgeWs s && decide (s.length ≤ 100)

/-! ## Supporting lemmas: base64 round trip -/

theorem b64index_b64char : ∀ s < 64, b64index (b64char s) = some s := by
  decide

theorem b64char_ne_eq : ∀ s < 64, b64char s ≠ 61 := by decide

theorem b64char_not_ws : ∀ s < 64, asciiWs (b64char s) = false := by decide

theorem encodeSextets_all_lt64 (bs : List Nat) (h : ∀ c ∈ bs, c < 256) :
    ∀ v ∈ encodeSextets bs, v < 64 := by
  induction bs using encodeSextets.induct with
  | case1 a b c rest ih =>
    have ha := h a (by simp)
    have hb := h b (by simp)
    have hc := h c (by simp)
    have hrest : ∀ x ∈ rest, x < 256 := fun x hx => h x (by simp [hx])
    intro v hv
    simp only [encodeSextets, List.mem_cons] at hv
    rcases hv with rfl | rfl | rfl | rfl | hv
    · omega
    · omega
    · omega
    · omega
    · exact ih hrest v hv
  | case2 a b =>
    have ha := h a (by simp)
    have hb := h b (by simp)
    intro v hv
    simp only [encodeSextets, List.mem_cons, List.not_mem_nil, or_false] at hv
    rcases hv with rfl | rfl | rfl <;> omega
  | case3 a =>
    have ha := h a (by simp)
    intro v hv
    simp only [encodeSextets, List.mem_cons, List.not_mem_nil, or_false] at hv
    rcases hv with rfl | rfl <;> omega
  | case4 => simp [encodeSextets]

theorem decode_encode (bs : List Nat) (h : ∀ c ∈ bs, c < 256) :
    decodeSextets (encodeSextets bs) = bs := by
  induction bs using encodeSextets.induct with
  | case1 a b c rest ih =>
    have ha := h a (by simp)
    have hb := h b (by simp)
    have hc := h c (by simp)
    have hrest : ∀ x ∈ rest, x < 256 := fun x hx => h x (by simp [hx])
    simp only [encodeSextets, decodeSextets, List.cons.injEq]
    exact ⟨by omega, by omega, by omega, ih hrest⟩
  | case2 a b =>
    have ha := h a (by simp)
    have hb := h b (by simp)
    simp only [encodeSextets, decodeSextets, List.cons.injEq, and_true]
    omega
  | case3 a =>
    have ha := h a (by simp)
    simp only [encodeSextets, decodeSextets, List.cons.injEq, and_true]
    omega
  | case4 => simp [encodeSextets, decodeSextets]

theorem encodeSextets_length (bs : List Nat) :
    (encodeSextets bs).length =
      4 * (bs.length / 3) + bs.length % 3 + min (bs.length % 3) 1 := by
  induction bs using encodeSextets.induct with
  | case1 a b c rest ih =>
    simp only [encodeSextets, List.length_cons] at ih ⊢
    omega
  | case2 a b => simp [encodeSextets]
  | case3 a => simp [encodeSextets]
  | case4 => simp [encodeSextets]

theorem b64pad_length (n : Nat) :
    (b64pad n).length = (3 - n % 3) % 3 := by
  have h : n % 3 = 0 ∨ n % 3 = 1 ∨ n % 3 = 2 := by omega
  rcases h with h | h | h <;> simp [b64pad, h]

theorem toSextets_map (sx : List Nat) (h : ∀ v ∈ sx, v < 64) :
    toSextets (sx.map b64char) = some sx := by
  induction sx with
  | nil => simp [toSextets]
  | cons v vs ih =>
    have hv : v < 64 := h v (List.mem_cons_self v vs)
    have hvs : ∀ x ∈ vs, x < 64 := fun x hx => h x (List.mem_cons_of_mem _ hx)
    simp only [List.map_cons, toSextets, b64index_b64char v hv, ih hvs]

theorem dropWhile_eq_self_of_forall {p : Nat → Bool} (l : List Nat)
    (h : ∀ c ∈ l, p c = false) : l.dropWhile p = l := by
  cases l with
  | nil => rfl
  | cons c tl =>
    rw [List.dropWhile_cons]
    simp [h c (List.mem_cons_self c tl)]

theorem takeWhile_eq_self_of_forall {p : Nat → Bool} (l : List Nat)
    (h : ∀ c ∈ l, p c = true) : l.takeWhile p = l := by
  induction l with
  | nil => rfl
  | cons c tl ih =>
    rw [List.takeWhile_cons]
    simp only [h c (List.mem_cons_self c tl), if_true]
    rw [ih fun x hx => h x (List.mem_cons_of_mem _ hx)]

theorem filter_eq_self_of_forall {p : Nat → Bool} (l : List Nat)
    (h : ∀ c ∈ l, p c = true) : l.filter p = l := by
  induction l with
  | nil => rfl
  | cons c tl ih =>
    rw [List.filter_cons]
    simp only [h c (List.mem_cons_self c tl), if_true]
    rw [ih fun x hx => h x (List.mem_cons_of_mem _ hx)]

theorem dropTrailingEq_append_pad (chars : List Nat) (n : Nat)
    (h : ∀ c ∈ chars, c ≠ 61) :
    dropTrailingEq (chars ++ b64pad n) = chars := by
  have hmod : n % 3 = 0 ∨ n % 3 = 1 ∨ n % 3 = 2 := by omega
  rcases hmod with hm | hm | hm
  · -- no padding
    simp only [b64pad, hm, List.append_nil]
    unfold dropTrailingEq
    cases hr : chars.reverse with
    | nil => rfl
    | cons c1 rest =>
      have hc1 : c1 ∈ chars := by
        rw [← List.mem_reverse, hr]; exact List.mem_cons_self _ _
      simp [h c1 hc1]
  · -- two trailing =
    simp only [b64pad, hm]
    unfold dropTrailingEq
    rw [List.reverse_append]
    simp
  · -- one trailing =
    simp only [b64pad, hm]
    unfold dropTrailingEq
    rw [List.reverse_append]
    simp only [List.reverse_cons, List.reverse_nil, List.nil_append,
      List.cons_append, List.nil_append]
    cases hr : chars.reverse with
    | nil =>
      simp only [if_pos rfl]
      have : chars = [] := by
        have := congrArg List.reverse hr
        simpa using this
      simp [this]
    | cons c2 rest2 =>
      have hc2 : c2 ∈ chars := by
        rw [← List.mem_reverse, hr]; exact List.mem_cons_self _ _
      simp only [if_pos rfl, h c2 hc2, if_false]
      rw [← hr]
      simp

/-- Decoding inverts encoding: `atob` recovers the exact byte string that
`btoa` encoded. -/
theorem atob_btoa (bs : List Nat) (h : ∀ c ∈ bs, c < 256) :
    atob ((encodeSextets bs).map b64char ++ b64pad bs.length) = some bs := by
  have hlt := encodeSextets_all_lt64 bs h
  have hchars_ne : ∀ c ∈ (encodeSextets bs).map b64char, c ≠ 61 := by
    intro c hc
    rcases List.mem_map.mp hc with ⟨v, hv, rfl⟩
    exact b64char_ne_eq v (hlt v hv)
  have hchars_ws : ∀ c ∈ (encodeSextets bs).map b64char ++ b64pad bs.length,
      (fun c => !asciiWs c) c = true := by
    intro c hc
    rcases List.mem_append.mp hc with hc | hc
    · rcases List.mem_map.mp hc with ⟨v, hv, rfl⟩
      simp [b64char_not_ws v (hlt v hv)]
    · have : c = 61 := by
        have h3 : bs.length % 3 = 0 ∨ bs.length % 3 = 1 ∨ bs.length % 3 = 2 :=
          by omega
        rcases h3 with h3 | h3 | h3 <;> simp [b64pad, h3] at hc <;> omega
      simp [this, asciiWs]
  have h3 : bs.length % 3 = 0 ∨ bs.length % 3 = 1 ∨ bs.length % 3 = 2 := by
    omega
  have hlen : ((encodeSextets bs).map b64char ++ b64pad bs.length).length % 4
      = 0 := by
    rw [List.length_append, List.length_map, encodeSextets_length,
      b64pad_length]
    rcases h3 with h3 | h3 | h3 <;> rw [h3] <;> omega
  have hstrip : stripPad ((encodeSextets bs).map b64char ++ b64pad bs.length)
      = (encodeSextets bs).map b64char := by
    rw [stripPad, if_pos hlen, dropTrailingEq_append_pad _ _ hchars_ne]
  have hlen2 : ((encodeSextets bs).map b64char).length % 4 ≠ 1 := by
    rw [List.length_map, encodeSextets_length]
    rcases h3 with h3 | h3 | h3 <;> rw [h3] <;> omega
  unfold atob
  rw [filter_eq_self_of_forall _ hchars_ws, hstrip, if_neg hlen2,
    toSextets_map _ hlt]
  show some (decodeSextets (encodeSextets bs)) = some bs
  rw [decode_encode bs h]

/-- `btoa` succeeds exactly on byte strings, and `atob` then inverts it. -/
theorem btoa_atob_some (bs : List Nat) (h : ∀ c ∈ bs, c < 256) :
    ∃ tk, btoa bs = some tk ∧ atob tk = some bs ∧
      tk.length = 4 * ((bs.length + 2) / 3) := by
  have hall : bs.all (· < 256) = true := by
    simp only [List.all_eq_true, decide_eq_true_eq]; exact h
  refine ⟨(encodeSextets bs).map b64char ++ b64pad bs.length, ?_, ?_, ?_⟩
  · simp [btoa, hall]
  · exact atob_btoa bs h
  · rw [List.length_append, List.length_map, encodeSextets_length,
      b64pad_length]
    omega

/-! ## Supporting lemmas: split, digits, parseInt -/

theorem splitOnColon_append (xs rest : List Nat) (h : ∀ c ∈ xs, c ≠ 58) :
    splitOnColon (xs ++ 58 :: rest) = xs :: splitOnColon rest := by
  induction xs with
  | nil => simp [splitOnColon]
  | cons c tl ih =>
    have hc : c ≠ 58 := h c (List.mem_cons_self c tl)
    have htl : ∀ x ∈ tl, x ≠ 58 := fun x hx => h x (List.mem_cons_of_mem _ hx)
    simp only [List.cons_append, splitOnColon, if_neg hc, List.append_eq,
      ih htl]

theorem splitOnColon_nocolon (xs : List Nat) (h : ∀ c ∈ xs, c ≠ 58) :
    splitOnColon xs = [xs] := by
  induction xs with
  | nil => rfl
  | cons c tl ih =>
    have hc : c ≠ 58 := h c (List.mem_cons_self c tl)
    have htl : ∀ x ∈ tl, x ≠ 58 := fun x hx => h x (List.mem_cons_of_mem _ hx)
    simp only [splitOnColon, if_neg hc, ih htl]

/-- Any sufficient fuel computes the same digit string. -/
theorem natDigitsAux_congr :
    ∀ n f1 f2, n < f1 → n < f2 → natDigitsAux f1 n = natDigitsAux f2 n := by
  intro n
  induction n using Nat.strong_induction_on with
  | _ n ih =>
    intro f1 f2 h1 h2
    match f1, f2 with
    | g1 + 1, g2 + 1 =>
      simp only [natDigitsAux]
      by_cases h : n < 10
      · rw [if_pos h, if_pos h]
      · rw [if_neg h, if_neg h,
          ih (n / 10) (by omega) g1 g2 (by omega) (by omega)]

/-- The recurrence satisfied by `natDigits`. -/
theorem natDigits_eq (n : Nat) :
    natDigits n =
      if n < 10 then [48 + n] else natDigits (n / 10) ++ [48 + n % 10] := by
  show natDigitsAux (n + 1) n = _
  rw [natDigitsAux]
  by_cases h : n < 10
  · rw [if_pos h, if_pos h]
  · rw [if_neg h, if_neg h,
      natDigitsAux_congr (n / 10) n (n / 10 + 1) (by omega) (by omega)]
    rfl

theorem natDigits_mem (n : Nat) : ∀ c ∈ natDigits n, 48 ≤ c ∧ c ≤ 57 := by
  induction n using Nat.strong_induction_on with
  | _ n ih =>
    intro c hc
    rw [natDigits_eq] at hc
    by_cases h : n < 10
    · rw [if_pos h] at hc
      simp only [List.mem_singleton] at hc
      omega
    · rw [if_neg h] at hc
      rcases List.mem_append.mp hc with hc | hc
      · exact ih (n / 10) (by omega) c hc
      · simp only [List.mem_singleton] at hc
        omega

theorem natDigits_ne_nil (n : Nat) : natDigits n ≠ [] := by
  rw [natDigits_eq]
  by_cases h : n < 10
  · rw [if_pos h]; simp
  · rw [if_neg h]; simp

theorem digitsVal_append_one (xs : List Nat) (d : Nat) :
    digitsVal (xs ++ [d]) = digitsVal xs * 10 + (d - 48) := by
  simp [digitsVal, List.foldl_append]

theorem digitsVal_natDigits (n : Nat) : digitsVal (natDigits n) = n := by
  induction n using Nat.strong_induction_on with
  | _ n ih =>
    rw [natDigits_eq]
    by_cases h : n < 10
    · rw [if_pos h]
      simp [digitsVal]
    · rw [if_neg h, digitsVal_append_one, ih (n / 10) (by omega)]
      omega

theorem digit_not_jsWs (c : Nat) (h : 48 ≤ c ∧ c ≤ 57) : jsWs c = false := by
  simp only [jsWs, Bool.or_eq_false_iff, decide_eq_false_iff_not,
    Bool.and_eq_false_iff, decide_eq_false_iff_not]
  omega

/-- `parseInt` applied to the decimal rendering of a natural recovers it. -/
theorem jsParseInt_natDigits (n : Nat) :
    jsParseInt (natDigits n) = some (n : Int) := by
  have hmem := natDigits_mem n
  have hnws : ∀ c ∈ natDigits n, jsWs c = false := fun c hc =>
    digit_not_jsWs c (hmem c hc)
  unfold jsParseInt
  rw [dropWhile_eq_self_of_forall _ hnws]
  cases hd : natDigits n with
  | nil => exact absurd hd (natDigits_ne_nil n)
  | cons c tl =>
    have hc : 48 ≤ c ∧ c ≤ 57 := by
      have := hmem c (by rw [hd]; exact List.mem_cons_self _ _)
      exact this
    have h43 : c ≠ 43 := by omega
    have h45 : c ≠ 45 := by omega
    simp only [if_neg h43, if_neg h45]
    have hdig : ∀ x ∈ natDigits n, isDigitCode x = true := by
      intro x hx
      have := hmem x hx
      simp only [isDigitCode, Bool.and_eq_true, decide_eq_true_eq]
      omega
    rw [← hd]
    unfold parseDigitRun
    rw [takeWhile_eq_self_of_forall _ hdig]
    simp only [List.isEmpty_eq_true]
    rw [if_neg (natDigits_ne_nil n), digitsVal_natDigits]
    rfl

theorem natDigits_length_le (k : Nat) :
    ∀ n, n < 10 ^ k → (natDigits n).length ≤ k + 1 := by
  induction k with
  | zero =>
    intro n hn
    interval_cases n
    simp [natDigits, natDigitsAux]
  | succ k ih =>
    intro n hn
    rw [natDigits_eq]
    by_cases h : n < 10
    · rw [if_pos h]
      simp
    · rw [if_neg h]
      have : n / 10 < 10 ^ k := by
        rw [pow_succ] at hn
        omega
      have := ih (n / 10) this
      simp only [List.length_append, List.length_singleton]
      omega

theorem splitOnColon_payload (u p ds rand : List Nat)
    (hu : ∀ c ∈ u, c ≠ 58) (hp : ∀ c ∈ p, c ≠ 58)
    (hd : ∀ c ∈ ds, c ≠ 58) (hr : ∀ c ∈ rand, c ≠ 58) :
    splitOnColon (u ++ 58 :: (p ++ 58 :: (ds ++ 58 :: rand)))
      = [u, p, ds, rand] := by
  rw [splitOnColon_append u _ hu, splitOnColon_append p _ hp,
    splitOnColon_append ds _ hd, splitOnColon_nocolon rand hr]

/-- The central fact about the token codec: a token issued for `(u, p)` at
clock reading `ts` with nonce `rand` is issued successfully, fits in the
500-unit DoS bound, and is accepted at a later clock reading `now` exactly
when `ts ≤ now ≤ ts + maxAgeMillis` — provided `u`, `p` and the nonce stay
below code point 256 (else `btoa` throws), avoid the `:` delimiter, and
respect the lengths the surrounding code guarantees (credentials ≤ 100 after
`validateCredentials`, a 13-unit nonce, a decimal clock below 10^16). -/
theorem validateToken_generateToken (u p rand : List Nat) (ts : Nat)
    (hu : ∀ c ∈ u, c < 256 ∧ c ≠ 58) (hp : ∀ c ∈ p, c < 256 ∧ c ≠ 58)
    (hr : ∀ c ∈ rand, c < 256 ∧ c ≠ 58)
    (hul : u.length ≤ 100) (hpl : p.length ≤ 100) (hrl : rand.length ≤ 13)
    (hts : ts < 10 ^ 16) :
    ∃ tk, generateToken u p ts rand = some tk ∧ tk.length ≤ 500 ∧
      ∀ now, validateToken tk u p now =
        (decide (ts ≤ now) && decide (now ≤ ts + maxAgeMillis)) := by
  set payload := u ++ 58 :: (p ++ 58 :: (natDigits ts ++ 58 :: rand))
    with hpayload
  have hds := natDigits_mem ts
  have h256 : ∀ c ∈ payload, c < 256 := by
    intro c hc
    rw [hpayload] at hc
    simp only [List.mem_append, List.mem_cons] at hc
    rcases hc with hc | rfl | hc | rfl | hc | rfl | hc
    · exact (hu c hc).1
    · omega
    · exact (hp c hc).1
    · omega
    · have := hds c hc; omega
    · omega
    · exact (hr c hc).1
  obtain ⟨tk, hbtoa, hatob, hlen⟩ := btoa_atob_some payload h256
  have hdslen : (natDigits ts).length ≤ 17 := natDigits_length_le 16 ts hts
  have hplen : payload.length =
      u.length + p.length + (natDigits ts).length + rand.length + 3 := by
    rw [hpayload]
    simp only [List.length_append, List.length_cons]
    omega
  have hlen500 : tk.length ≤ 500 := by rw [hlen]; omega
  have hplen3 : 3 ≤ payload.length := by omega
  have htknil : tk ≠ [] := by
    have : 0 < tk.length := by rw [hlen]; omega
    exact List.ne_nil_of_length_pos this
  have hsplit : splitOnColon payload = [u, p, natDigits ts, rand] :=
    splitOnColon_payload u p (natDigits ts) rand
      (fun c hc => (hu c hc).2) (fun c hc => (hp c hc).2)
      (fun c hc => by have := hds c hc; omega)
      (fun c hc => (hr c hc).2)
  refine ⟨tk, hbtoa, hlen500, fun now => ?_⟩
  unfold validateToken
  have hcond : (decide (tk = []) || decide (tk.length > 500)) = false := by
    simp [htknil, Nat.not_lt.mpr hlen500]
  rw [hcond, if_neg (by simp), hatob]
  simp only [hsplit, List.length_cons, List.length_nil, List.getD_cons_zero,
    List.getD_cons_succ, jsParseInt_natDigits]
  have hexp : (CONFIG.TOKEN_EXPIRY_DAYS : Int) * 24 * 60 * 60 * 1000
      = (maxAgeMillis : Int) := by
    norm_num [CONFIG, maxAgeMillis]
  rcases le_or_lt ts now with h1 | h1
  · rcases le_or_lt now (ts + maxAgeMillis) with h2 | h2
    · have hc1 : ¬ ((now : Int) - (ts : Int) < 0) := by omega
      have hc2 : ¬ ((now : Int) - (ts : Int) >
          (CONFIG.TOKEN_EXPIRY_DAYS : Int) * 24 * 60 * 60 * 1000) := by
        rw [hexp]
        have : (maxAgeMillis : Nat) = 604800000 := rfl
        omega
      simp [hc1, hc2, h1, h2]
    · have hc2 : (now : Int) - (ts : Int) >
          (CONFIG.TOKEN_EXPIRY_DAYS : Int) * 24 * 60 * 60 * 1000 := by
        rw [hexp]
        have : (maxAgeMillis : Nat) = 604800000 := rfl
        omega
      simp [hc2, Nat.not_le.mpr h2]
  · have hc1 : (now : Int) - (ts : Int) < 0 := by omega
    simp [hc1, Nat.not_le.mpr h1]

/-! ## Supporting lemmas: trimming and sanitization -/

theorem head?_dropWhile {p : Nat → Bool} (l : List Nat) :
    ∀ c, (l.dropWhile p).head? = some c → p c = false := by
  induction l with
  | nil => intro c hc; simp at hc
  | cons a tl ih =>
    intro c hc
    rw [List.dropWhile_cons] at hc
    by_cases ha : p a
    · rw [if_pos ha] at hc
      exact ih c hc
    · rw [if_neg ha] at hc
      simp only [List.head?_cons, Option.some.injEq] at hc
      rw [← hc]
      exact Bool.of_not_eq_true ha

theorem getLast?_dropWhile {p : Nat → Bool} (l : List Nat)
    (h : l.dropWhile p ≠ []) : (l.dropWhile p).getLast? = l.getLast? := by
  induction l with
  | nil => simp at h
  | cons a tl ih =>
    rw [List.dropWhile_cons]
    by_cases ha : p a
    · rw [List.dropWhile_cons, if_pos ha] at h
      rw [if_pos ha, ih h]
      cases tl with
      | nil => simp [List.dropWhile_nil] at h
      | cons b tl2 => rw [List.getLast?_cons_cons]
    · rw [if_neg ha]

theorem mem_dropWhile {p : Nat → Bool} (l : List Nat) :
    ∀ c ∈ l.dropWhile p, c ∈ l := by
  induction l with
  | nil => simp
  | cons a tl ih =>
    intro c hc
    rw [List.dropWhile_cons] at hc
    by_cases ha : p a
    · rw [if_pos ha] at hc
      exact List.mem_cons_of_mem _ (ih c hc)
    · rw [if_neg ha] at hc
      exact hc

theorem mem_jsTrim (s : List Nat) : ∀ c ∈ jsTrim s, c ∈ s := by
  intro c hc
  unfold jsTrim at hc
  rw [List.mem_reverse] at hc
  have := mem_dropWhile _ c hc
  rw [List.mem_reverse] at this
  exact mem_dropWhile _ c this

theorem length_dropWhile_le' {p : Nat → Bool} (l : List Nat) :
    (l.dropWhile p).length ≤ l.length := by
  induction l with
  | nil => simp
  | cons a tl ih =>
    rw [List.dropWhile_cons]
    by_cases ha : p a
    · rw [if_pos ha]
      simp only [List.length_cons]
      omega
    · rw [if_neg ha]

theorem jsTrim_length_le (s : List Nat) : (jsTrim s).length ≤ s.length := by
  unfold jsTrim
  calc ((s.dropWhile jsWs).reverse.dropWhile jsWs).reverse.length
      = ((s.dropWhile jsWs).reverse.dropWhile jsWs).length :=
        List.length_reverse _
    _ ≤ (s.dropWhile jsWs).reverse.length := length_dropWhile_le' _
    _ = (s.dropWhile jsWs).length := List.length_reverse _
    _ ≤ s.length := length_dropWhile_le' _

theorem jsWs_33 : jsWs 33 = false := by decide

/-- The result of `trim` has no whitespace at either edge. -/
theorem noEdgeWs_jsTrim (s : List Nat) : noEdgeWs (jsTrim s) = true := by
  unfold noEdgeWs
  rw [Bool.and_eq_true]
  constructor
  · -- leading edge: the head of the trimmed string
    cases hh : (jsTrim s).head? with
    | none => rfl
    | some c =>
      -- the head of `(B.reverse)` is the last of `B`, which since `B` is a
      -- nonempty `dropWhile` suffix agrees with the last of
      -- `(s.dropWhile jsWs).reverse`, i.e. the head of `s.dropWhile jsWs`
      unfold jsTrim at hh
      rw [List.head?_reverse] at hh
      have hne : (s.dropWhile jsWs).reverse.dropWhile jsWs ≠ [] := by
        intro hcon
        rw [hcon] at hh
        simp at hh
      rw [getLast?_dropWhile _ hne, List.getLast?_reverse] at hh
      have := head?_dropWhile s c hh
      simp [this]
  · -- trailing edge: the last of the trimmed string
    cases hh : (jsTrim s).getLast? with
    | none => rfl
    | some c =>
      unfold jsTrim at hh
      rw [List.getLast?_reverse] at hh
      have := head?_dropWhile (s.dropWhile jsWs).reverse c hh
      simp [this]

theorem mem_sanitizeString (s : List Nat) (m : Nat) :
    ∀ c ∈ sanitizeString s m, c ∈ s ∧ c ≠ 0 := by
  intro c hc
  unfold sanitizeString at hc
  have h1 : c ∈ jsTrim (s.filter (· != 0)) := List.take_subset _ _ hc
  have h2 : c ∈ s.filter (· != 0) := mem_jsTrim _ c h1
  rw [List.mem_filter] at h2
  refine ⟨h2.1, ?_⟩
  have := h2.2
  simpa using this

theorem sanitizeString_length_le (s : List Nat) (m : Nat) :
    (sanitizeString s m).length ≤ m := by
  exact List.length_take_le m _

/-- When the input is already within the bound, truncation is the identity
and the sanitized output is exactly the trimmed NUL-free string. -/
theorem sanitizeString_of_short (s : List Nat) (m : Nat)
    (h : s.length ≤ m) :
    sanitizeString s m = jsTrim (s.filter (· != 0)) := by
  unfold sanitizeString
  apply List.take_of_length_le
  calc (jsTrim (s.filter (· != 0))).length
      ≤ (s.filter (· != 0)).length := jsTrim_length_le _
    _ ≤ s.length := List.length_filter_le _ _
    _ ≤ m := h

theorem credOutOk_sanitize (s : List Nat) (h : s.length ≤ 100) :
    credOutOk (sanitizeString s 100) = true := by
  rw [sanitizeString_of_short s 100 h]
  unfold credOutOk
  rw [Bool.and_eq_true, Bool.and_eq_true]
  refine ⟨⟨?_, ?_⟩, ?_⟩
  · rw [List.all_eq_true]
    intro c hc
    have h2 : c ∈ s.filter (· != 0) := mem_jsTrim _ c hc
    rw [List.mem_filter] at h2
    exact h2.2
  · exact noEdgeWs_jsTrim _
  · rw [← sanitizeString_of_short s 100 h]
    simpa using sanitizeString_length_le s 100

/-! ## Supporting lemmas: inversion of the verify path -/

/-- Inversion: whenever the verifier accepts, every one of its checks must
have passed — the token is nonempty and within the DoS bound, base64-decodes,
splits into at least 3 fields, carries exactly the reference credentials in
its first two fields, and carries a parsable timestamp with a nonnegative
age within the expiry window. -/
theorem validateToken_true_inversion (token u p : List Nat) (now : Nat)
    (h : validateToken token u p now = true) :
    0 < token.length ∧ token.length ≤ 500 ∧
    ∃ d, atob token = some d ∧
      3 ≤ (splitOnColon d).length ∧
      (splitOnColon d).getD 0 [] = u ∧
      (splitOnColon d).getD 1 [] = p ∧
      ∃ ts : Int, jsParseInt ((splitOnColon d).getD 2 []) = some ts ∧
        0 ≤ (now : Int) - ts ∧
        (now : Int) - ts ≤ (maxAgeMillis : Int) := by
  unfold validateToken at h
  split at h
  · simp at h
  · rename_i h0
    simp only [Bool.or_eq_true, decide_eq_true_eq, not_or] at h0
    have hlen0 : 0 < token.length := by
      rcases h0 with ⟨h0a, _⟩
      cases token with
      | nil => exact absurd rfl h0a
      | cons a tl => simp
    have hlen500 : token.length ≤ 500 := by omega
    refine ⟨hlen0, hlen500, ?_⟩
    split at h
    · simp at h
    · rename_i d hA
      refine ⟨d, hA, ?_⟩
      split at h
      · simp at h
      · rename_i h3
        split at h
        · simp at h
        · rename_i h4
          simp only [Bool.or_eq_true, decide_eq_true_eq, not_or, not_not]
            at h4
          refine ⟨by omega, h4.1, h4.2, ?_⟩
          split at h
          · simp at h
          · rename_i ts hP
            refine ⟨ts, hP, ?_⟩
            split at h
            · simp at h
            · rename_i h5
              simp only [Bool.or_eq_true, decide_eq_true_eq, not_or,
                not_lt] at h5
              have hexp : (CONFIG.TOKEN_EXPIRY_DAYS : Int) * 24 * 60 * 60 *
                  1000 = (maxAgeMillis : Int) := by
                norm_num [CONFIG, maxAgeMillis]
              rw [hexp] at h5
              exact ⟨h5.1, h5.2⟩

/-! ## Supporting lemmas: validateCredentials -/

theorem validateCredentials_ok_shape (a b : JSVal) (creds : Creds)
    (h : validateCredentials a b = .ok creds) :
    ∃ u p, a = .vStr u ∧ b = .vStr p ∧ u.length ≤ 100 ∧ p.length ≤ 100 ∧
      creds = ⟨sanitizeString u 100, sanitizeString p 100⟩ := by
  unfold validateCredentials at h
  split at h
  · simp at h
  · rename_i h0
    split at h
    · rename_i u p
      split at h
      · simp at h
      · rename_i h1
        simp only [Bool.or_eq_true, decide_eq_true_eq, not_or, Nat.not_lt]
          at h1
        simp only [Except.ok.injEq] at h
        exact ⟨u, p, rfl, rfl, h1.1, h1.2, h.symm⟩
    · simp at h

/-! ## Claim C1: token round trip -/

/-- Claim C1, counterexample: the pair `("a:b", "c")` is accepted by the
credential validator, yet a freshly issued token for it is rejected when
verified against the same pair at the same clock reading — the `:` inside
the username shifts the colon-separated fields of the decoded payload. -/
theorem claim1_counterexample :
    (validateCredentials (.vStr (jstr "a:b")) (.vStr (jstr "c"))).isOk
      = true ∧
    (generateToken (jstr "a:b") (jstr "c") 1000 (jstr "zzz")).isSome = true ∧
    validateToken ((generateToken (jstr "a:b") (jstr "c") 1000
        (jstr "zzz")).getD []) (jstr "a:b") (jstr "c") 1000 = false := by
  decide

/-- Claim C1 as amended: for every pair accepted by the credential validator
whose fields contain no `:` delimiter and only code points below 256 (for a
`:`-free pair the round trip fails, and `btoa` throws on points ≥ 256),
verifying a freshly issued token against that same pair at the same or any
later clock reading within the expiry window succeeds.  The nonce is any
`:`-free string of at most 13 sub-256 units, as produced by
`Math.random().toString(36).substring(2, 15)`; the issue clock is any epoch
reading below 10^16 (through year 316887). -/
theorem claim1_tokenRoundTrip (u p rand : List Nat) (ts now : Nat)
    (hu : ∀ c ∈ u, c < 256 ∧ c ≠ 58) (hp : ∀ c ∈ p, c < 256 ∧ c ≠ 58)
    (hr : ∀ c ∈ rand, c < 256 ∧ c ≠ 58) (hrl : rand.length ≤ 13)
    (hts : ts < 10 ^ 16) (h1 : ts ≤ now) (h2 : now ≤ ts + maxAgeMillis)
    (hacc : (validateCredentials (.vStr u) (.vStr p)).isOk = true) :
    ∃ tk, generateToken u p ts rand = some tk ∧
      validateToken tk u p now = true := by
  have hlen : u.length ≤ 100 ∧ p.length ≤ 100 := by
    cases hvc : validateCredentials (.vStr u) (.vStr p) with
    | error e => rw [hvc] at hacc; simp [Except.isOk, Except.toBool] at hacc
    | ok creds =>
      obtain ⟨u', p', hu', hp', hul, hpl, _⟩ :=
        validateCredentials_ok_shape _ _ creds hvc
      simp only [JSVal.vStr.injEq] at hu' hp'
      rw [hu', hp']
      exact ⟨hul, hpl⟩
  obtain ⟨tk, hgen, _, hval⟩ :=
    validateToken_generateToken u p rand ts hu hp hr hlen.1 hlen.2 hrl hts
  refine ⟨tk, hgen, ?_⟩
  rw [hval now]
  simp [h1, h2]

/-- Claim C1, witness: the amended round trip at a concrete instance. -/
theorem claim1_witness :
    ∃ tk, generateToken (jstr "admin") (jstr "secret") 1700000000000
        (jstr "k3j2h1g4f5d6s") = some tk ∧
      validateToken tk (jstr "admin") (jstr "secret") 1700000000001
        = true :=
  claim1_tokenRoundTrip (jstr "admin") (jstr "secret") (jstr "k3j2h1g4f5d6s")
    1700000000000 1700000000001 (by decide) (by decide) (by decide)
    (by decide) (by decide) (by decide) (by decide) (by decide)

/-! ## Claim C2: tamper sensitivity of the last 10 characters -/

/-- Claim C2, counterexample: a valid token and a second token of the same
length agreeing with it on every position except the last 10 (all ten of
which differ) are BOTH accepted: the last 10 characters of this token only
encode part of the nonce and the padding, which the verifier never checks.
The token is 56 characters long, positions 46..55 are its last 10. -/
theorem claim2_counterexample :
    validateToken ((generateToken (jstr "admin") (jstr "secret")
        1700000000000 (jstr "aaaaaaaaaaaaa")).getD [])
      (jstr "admin") (jstr "secret") 1700000000000 = true ∧
    ((generateToken (jstr "admin") (jstr "secret") 1700000000000
        (jstr "aaaaaaaaaaaaa")).getD []).length = 56 ∧
    ((btoa (jstr "admin:secret:1700000000000:aaaaaaabzxyzqrs")).getD
        []).length = 56 ∧
    ((btoa (jstr "admin:secret:1700000000000:aaaaaaabzxyzqrs")).getD
        []).take 46 =
      ((generateToken (jstr "admin") (jstr "secret") 1700000000000
        (jstr "aaaaaaaaaaaaa")).getD []).take 46 ∧
    ((List.range 10).all fun i =>
      ((btoa (jstr "admin:secret:1700000000000:aaaaaaabzxyzqrs")).getD
          []).getD (46 + i) 0 !=
      ((generateToken (jstr "admin") (jstr "secret") 1700000000000
          (jstr "aaaaaaaaaaaaa")).getD []).getD (46 + i) 0) = true ∧
    validateToken ((btoa (jstr
        "admin:secret:1700000000000:aaaaaaabzxyzqrs")).getD [])
      (jstr "admin") (jstr "secret") 1700000000000 = true := by
  decide

/-- Claim C2 as amended: mutating the last 10 characters of a valid token is
rejected only insofar as the mutation disturbs what the verifier actually
checks.  A token — mutated or not — is accepted only if it is nonempty,
within the 500-unit bound, base64-decodes, splits into at least 3
colon-separated fields whose first two equal the reference username and
password, and carries a parsable timestamp of nonnegative age within the
expiry window; so any last-10 mutation breaking one of these is rejected,
while a mutation confined to the encoded nonce can be accepted (see the
counterexample). -/
theorem claim2_acceptedTokenShape (token u p : List Nat) (now : Nat)
    (h : validateToken token u p now = true) :
    0 < token.length ∧ token.length ≤ 500 ∧
    ∃ d, atob token = some d ∧
      3 ≤ (splitOnColon d).length ∧
      (splitOnColon d).getD 0 [] = u ∧
      (splitOnColon d).getD 1 [] = p ∧
      ∃ ts : Int, jsParseInt ((splitOnColon d).getD 2 []) = some ts ∧
        0 ≤ (now : Int) - ts ∧
        (now : Int) - ts ≤ (maxAgeMillis : Int) :=
  validateToken_true_inversion token u p now h

/-- Claim C2, witness: the accepted-shape inversion at a concrete accepted
token. -/
theorem claim2_witness :
    0 < ((generateToken (jstr "track") (jstr "me") 1000
        (jstr "n0")).getD []).length ∧
    ((generateToken (jstr "track") (jstr "me") 1000
        (jstr "n0")).getD []).length ≤ 500 ∧
    ∃ d, atob ((generateToken (jstr "track") (jstr "me") 1000
        (jstr "n0")).getD []) = some d ∧
      3 ≤ (splitOnColon d).length ∧
      (splitOnColon d).getD 0 [] = jstr "track" ∧
      (splitOnColon d).getD 1 [] = jstr "me" ∧
      ∃ ts : Int, jsParseInt ((splitOnColon d).getD 2 []) = some ts ∧
        0 ≤ (1500 : Int) - ts ∧
        (1500 : Int) - ts ≤ (maxAgeMillis : Int) :=
  claim2_acceptedTokenShape _ _ _ 1500 (by decide)

/-! ## Claim C3: expiry boundary -/

/-- Claim C3: a token embedding issue timestamp `ts` is accepted when the
clock reads `ts + TOKEN_EXPIRY_DAYS * 86400000 - 1` and rejected at
`ts + TOKEN_EXPIRY_DAYS * 86400000 + 1`, when the embedded credentials match
the reference pair (side conditions as in the round-trip claim: `:`-free
sub-256 fields of the lengths the surrounding code guarantees). -/
theorem claim3_expiryBoundary (u p rand : List Nat) (ts : Nat)
    (hu : ∀ c ∈ u, c < 256 ∧ c ≠ 58) (hp : ∀ c ∈ p, c < 256 ∧ c ≠ 58)
    (hr : ∀ c ∈ rand, c < 256 ∧ c ≠ 58)
    (hul : u.length ≤ 100) (hpl : p.length ≤ 100) (hrl : rand.length ≤ 13)
    (hts : ts < 10 ^ 16) :
    ∃ tk, generateToken u p ts rand = some tk ∧
      validateToken tk u p
        (ts + CONFIG.TOKEN_EXPIRY_DAYS * 86400000 - 1) = true ∧
      validateToken tk u p
        (ts + CONFIG.TOKEN_EXPIRY_DAYS * 86400000 + 1) = false := by
  obtain ⟨tk, hgen, _, hval⟩ :=
    validateToken_generateToken u p rand ts hu hp hr hul hpl hrl hts
  have hmax : CONFIG.TOKEN_EXPIRY_DAYS * 86400000 = maxAgeMillis := by
    norm_num [CONFIG, maxAgeMillis]
  refine ⟨tk, hgen, ?_, ?_⟩
  · rw [hval, hmax]
    have hm : (maxAgeMillis : Nat) = 604800000 := rfl
    have h1 : ts ≤ ts + maxAgeMillis - 1 := by omega
    have h2 : ts + maxAgeMillis - 1 ≤ ts + maxAgeMillis := by omega
    simp [h1, h2]
  · rw [hval, hmax]
    have hm : (maxAgeMillis : Nat) = 604800000 := rfl
    have h2 : ¬ (ts + maxAgeMillis + 1 ≤ ts + maxAgeMillis) := by omega
    simp [h2]

/-- Claim C3, witness: the boundary behavior at a concrete token. -/
theorem claim3_witness :
    ∃ tk, generateToken (jstr "admin") (jstr "secret") 1700000000000
        (jstr "q7w8e9r0t1y2u") = some tk ∧
      validateToken tk (jstr "admin") (jstr "secret")
        (1700000000000 + CONFIG.TOKEN_EXPIRY_DAYS * 86400000 - 1) = true ∧
      validateToken tk (jstr "admin") (jstr "secret")
        (1700000000000 + CONFIG.TOKEN_EXPIRY_DAYS * 86400000 + 1) = false :=
  claim3_expiryBoundary (jstr "admin") (jstr "secret") (jstr "q7w8e9r0t1y2u")
    1700000000000 (by decide) (by decide) (by decide) (by decide)
    (by decide) (by decide) (by decide)

/-! ## Claim C4: verification rejection rules and check order -/

/-- Claim C4: the verifier agrees everywhere with the cascade that performs
the spec's checks in the spec's order (empty; longer than 500; base64
failure; fewer than 3 parts; credential mismatch; unparsable timestamp;
negative age; expiry), and each listed condition alone forces rejection.
Every failure path returns the same bare `false` — the verifier's type is
`Bool`, so no distinguishing error can be exposed. -/
theorem claim4_rejectionRules (token u p : List Nat) (now : Nat) :
    validateToken token u p now = validateTokenSpec token u p now ∧
    (token = [] → validateToken token u p now = false) ∧
    (500 < token.length → validateToken token u p now = false) ∧
    (atob token = none → validateToken token u p now = false) ∧
    (∀ d, atob token = some d → (splitOnColon d).length < 3 →
      validateToken token u p now = false) ∧
    (∀ d, atob token = some d →
      ((splitOnColon d).getD 0 [] ≠ u ∨ (splitOnColon d).getD 1 [] ≠ p) →
      validateToken token u p now = false) ∧
    (∀ d, atob token = some d →
      jsParseInt ((splitOnColon d).getD 2 []) = none →
      validateToken token u p now = false) ∧
    (∀ d ts, atob token = some d →
      jsParseInt ((splitOnColon d).getD 2 []) = some ts →
      (now : Int) - ts < 0 → validateToken token u p now = false) := by
  have hexp : (CONFIG.TOKEN_EXPIRY_DAYS : Int) * 24 * 60 * 60 * 1000
      = (maxAgeMillis : Int) := by
    norm_num [CONFIG, maxAgeMillis]
  refine ⟨?_, ?_, ?_, ?_, ?_, ?_, ?_, ?_⟩
  · -- the source verifier equals the spec's ordered cascade
    unfold validateToken validateTokenSpec
    by_cases h0 : token = []
    · simp [h0]
    · by_cases h1 : token.length > 500
      · simp [h0, h1]
      · simp [h0, h1]
        cases hA : atob token with
        | none => rfl
        | some d =>
          by_cases h3 : (splitOnColon d).length < 3
          · simp [h3]
          · simp [h3, hexp, Bool.and_assoc]
  · -- empty token
    intro h
    cases hv : validateToken token u p now
    · rfl
    · have := (validateToken_true_inversion token u p now hv).1
      rw [h] at this
      simp at this
  · -- over-long token
    intro h
    cases hv : validateToken token u p now
    · rfl
    · have := (validateToken_true_inversion token u p now hv).2.1
      omega
  · -- base64 failure
    intro h
    cases hv : validateToken token u p now
    · rfl
    · obtain ⟨d, hd, _⟩ := (validateToken_true_inversion token u p now hv).2.2
      rw [h] at hd
      simp at hd
  · -- fewer than 3 parts
    intro d hd h3
    cases hv : validateToken token u p now
    · rfl
    · obtain ⟨d', hd', hlen, _⟩ :=
        (validateToken_true_inversion token u p now hv).2.2
      rw [hd] at hd'
      simp only [Option.some.injEq] at hd'
      rw [← hd'] at hlen
      omega
  · -- credential mismatch
    intro d hd hbad
    cases hv : validateToken token u p now
    · rfl
    · obtain ⟨d', hd', _, hu', hp', _⟩ :=
        (validateToken_true_inversion token u p now hv).2.2
      rw [hd] at hd'
      simp only [Option.some.injEq] at hd'
      rw [← hd'] at hu' hp'
      rcases hbad with hbad | hbad
      · exact absurd hu' hbad
      · exact absurd hp' hbad
  · -- unparsable timestamp
    intro d hd hP
    cases hv : validateToken token u p now
    · rfl
    · obtain ⟨d', hd', _, _, _, ts, hts, _⟩ :=
        (validateToken_true_inversion token u p now hv).2.2
      rw [hd] at hd'
      simp only [Option.some.injEq] at hd'
      rw [← hd'] at hts
      rw [hP] at hts
      simp at hts
  · -- negative age
    intro d ts hd hP hneg
    cases hv : validateToken token u p now
    · rfl
    · obtain ⟨d', hd', _, _, _, ts', hts', hpos, _⟩ :=
        (validateToken_true_inversion token u p now hv).2.2
      rw [hd] at hd'
      simp only [Option.some.injEq] at hd'
      rw [← hd'] at hts'
      rw [hP] at hts'
      simp only [Option.some.injEq] at hts'
      rw [← hts'] at hpos
      omega

/-- Claim C4, witness: the rejection rules applied at concrete inputs. -/
theorem claim4_witness :
    validateToken [] (jstr "u") (jstr "p") 0 = false :=
  (claim4_rejectionRules [] (jstr "u") (jstr "p") 0).2.1 rfl

/-! ## Claim C5: credential validator postcondition -/

/-- Claim C5, counterexample: the pair `(" ", "p")` is accepted (no error is
thrown: a one-space username is truthy, a string, and short enough), yet the
returned username is the empty string — trimming happens after the
accept/reject decision, so the claimed non-emptiness of accepted outputs
fails. -/
theorem claim5_counterexample :
    validateCredentials (.vStr [32]) (.vStr [112])
      = .ok ⟨[], [112]⟩ := by
  decide

/-- Claim C5 as amended: for every accepted input pair the returned username
and password are NUL-free, carry no leading or trailing whitespace, and are
at most 100 units long — but they may be empty (see the counterexample);
and any input that is missing/falsy, not a string, or longer than 100 units
is rejected with a `ValidationError`. -/
theorem claim5_credentialShape (a b : JSVal) :
    (∀ creds, validateCredentials a b = .ok creds →
      credOutOk creds.username = true ∧ credOutOk creds.password = true) ∧
    (truthy a = false ∨ truthy b = false →
      (validateCredentials a b).isOk = false) ∧
    (isString a = false ∨ isString b = false →
      (validateCredentials a b).isOk = false) ∧
    (∀ s, a = .vStr s → 100 < s.length →
      (validateCredentials a b).isOk = false) ∧
    (∀ s, b = .vStr s → 100 < s.length →
      (validateCredentials a b).isOk = false) := by
  refine ⟨?_, ?_, ?_, ?_, ?_⟩
  · intro creds h
    obtain ⟨u, p, _, _, hul, hpl, hc⟩ :=
      validateCredentials_ok_shape a b creds h
    rw [hc]
    exact ⟨credOutOk_sanitize u hul, credOutOk_sanitize p hpl⟩
  · intro h
    have hcond : (!truthy a || !truthy b) = true := by
      rcases h with h | h <;> simp [h]
    unfold validateCredentials
    rw [if_pos hcond]
    rfl
  · intro h
    cases hvc : validateCredentials a b with
    | error e => rfl
    | ok creds =>
      obtain ⟨u, p, ha, hb, _, _, _⟩ :=
        validateCredentials_ok_shape a b creds hvc
      rcases h with h | h
      · rw [ha] at h; simp [isString] at h
      · rw [hb] at h; simp [isString] at h
  · intro s ha hlen
    cases hvc : validateCredentials a b with
    | error e => rfl
    | ok creds =>
      obtain ⟨u, p, ha', _, hul, _, _⟩ :=
        validateCredentials_ok_shape a b creds hvc
      rw [ha] at ha'
      simp only [JSVal.vStr.injEq] at ha'
      rw [ha'] at hlen
      omega
  · intro s hb hlen
    cases hvc : validateCredentials a b with
    | error e => rfl
    | ok creds =>
      obtain ⟨u, p, _, hb', _, hpl, _⟩ :=
        validateCredentials_ok_shape a b creds hvc
      rw [hb] at hb'
      simp only [JSVal.vStr.injEq] at hb'
      rw [hb'] at hlen
      omega

/-- Claim C5, witness: the accepted-output shape at a concrete pair whose
username needs trimming. -/
theorem claim5_witness :
    credOutOk (jstr "bob") = true ∧ credOutOk (jstr "pw1") = true :=
  (claim5_credentialShape (.vStr (jstr " bob ")) (.vStr (jstr "pw1"))).1
    ⟨jstr "bob", jstr "pw1"⟩ (by decide)

/-! ## Claim C6: uniform failure delay of the login gate -/

/-- Claim C6, counterexample: a malformed-input failure (missing username)
is answered with status 400 and NO artificial delay — `delayMs = 0`, not the
claimed 100 ms; only the credential-mismatch path delays. -/
theorem claim6_counterexample :
    loginPost .vUndef (.vStr (jstr "pw")) (jstr "u") (jstr "pw")
      = ⟨0, 400, .validationFailed "Username and password are required"⟩ :=
  rfl

/-- Claim C6 as amended: wrong-password and unknown-username failures both
impose the 100 ms delay and return the literally identical 401 response
(indistinguishable payloads), while malformed input is answered 400 with the
field-specific validation message and no delay. -/
theorem claim6_uniformFailure (a b : JSVal) (envU envP : List Nat) :
    (∀ e, validateCredentials a b = .error e →
      loginPost a b envU envP = ⟨0, 400, .validationFailed e.message⟩) ∧
    (∀ creds, validateCredentials a b = .ok creds →
      (creds.username ≠ envU ∨ creds.password ≠ envP) →
      loginPost a b envU envP = ⟨100, 401, .invalidCreds⟩) := by
  constructor
  · intro e h
    simp [loginPost, h]
  · intro creds h hmis
    have hne : ¬(creds.username = envU ∧ creds.password = envP) := by
      tauto
    simp [loginPost, h, hne]

/-- Claim C6, witness: the delayed, generic 401 at a concrete wrong pair. -/
theorem claim6_witness :
    loginPost (.vStr (jstr "eve")) (.vStr (jstr "x"))
      (jstr "admin") (jstr "pw") = ⟨100, 401, .invalidCreds⟩ :=
  (claim6_uniformFailure (.vStr (jstr "eve")) (.vStr (jstr "x"))
    (jstr "admin") (jstr "pw")).2 ⟨jstr "eve", jstr "x"⟩ (by decide)
    (by decide)

/-! ## Claim C7: SQL-keyword rejection in validateSymptomName -/

/-- Claim C7: every string whose sanitized form matches the case-insensitive
`\b(SELECT|INSERT|UPDATE|DELETE|DROP|UNION|EXEC|EXECUTE)\b` pattern is
rejected with a `ValidationError` — in particular the classic injection
probe — and every accepted input yields a nonempty string of at most 100
units. -/
theorem claim7_sqlKeywordReject :
    (∀ s, sqlPatternTest (sanitizeString s CONFIG.MAX_SYMPTOM_NAME_LENGTH)
        = true →
      validateSymptomName (.vStr s)
        = .error ⟨"Invalid characters in symptom name"⟩) ∧
    validateSymptomName (.vStr (jstr "'; DROP TABLE x; --"))
      = .error ⟨"Invalid characters in symptom name"⟩ ∧
    (∀ v r, validateSymptomName v = .ok r →
      0 < r.length ∧ r.length ≤ 100) := by
  refine ⟨?_, by decide, ?_⟩
  · intro s h
    have hsan : sanitizeString s CONFIG.MAX_SYMPTOM_NAME_LENGTH ≠ [] := by
      intro hc
      rw [hc] at h
      exact absurd h (by decide)
    have hs : s ≠ [] := by
      intro hc
      rw [hc] at hsan
      exact hsan rfl
    unfold validateSymptomName
    have hcond : (!truthy (JSVal.vStr s) || !isString (JSVal.vStr s))
        = false := by
      simp [truthy, isString, hs]
    rw [if_neg (by simp [hcond])]
    simp only [if_neg hsan, h, if_true]
  · intro v r h
    unfold validateSymptomName at h
    split at h
    · simp at h
    · split at h
      · rename_i x s heq
        split at h
        · simp at h
        · rename_i hne
          split at h
          · simp at h
          · simp only [Except.ok.injEq] at h
            rw [← h]
            constructor
            · rcases Nat.eq_zero_or_pos
                (sanitizeString s CONFIG.MAX_SYMPTOM_NAME_LENGTH).length
                with hz | hz
              · exact absurd (List.eq_nil_of_length_eq_zero hz) hne
              · exact hz
            · have := sanitizeString_length_le s
                CONFIG.MAX_SYMPTOM_NAME_LENGTH
              exact this
      · simp at h

/-- Claim C7, witness: the keyword rejection at a concrete matching input. -/
theorem claim7_witness :
    validateSymptomName (.vStr (jstr "Select one"))
      = .error ⟨"Invalid characters in symptom name"⟩ :=
  claim7_sqlKeywordReject.1 (jstr "Select one") (by decide)

/-! ## Claim C8: notes validation -/

/-- Claim C8, counterexample: the number `0` is a present, non-string,
non-null value, yet `validateNotes` returns `ok none` instead of the claimed
`ValidationError` — the falsy check runs before the type check. -/
theorem claim8_counterexample : validateNotes (.vNum 0) = .ok none := rfl

/-- Claim C8 as amended: `validateNotes(null)` returns `null`; a string
whose NUL-stripped trimmed form has length 1001 is silently truncated to its
first 1000 units; and every TRUTHY non-string value (not every present one —
`0`, `false`, `NaN` and `""` all yield `null`) is rejected with a
`ValidationError`. -/
theorem claim8_notesTruncation :
    validateNotes .vNull = .ok none ∧
    (∀ s, (jsTrim (s.filter (· != 0))).length = 1001 →
      validateNotes (.vStr s)
        = .ok (some ((jsTrim (s.filter (· != 0))).take 1000))) ∧
    (∀ v, truthy v = true → isString v = false →
      validateNotes v = .error ⟨"Notes must be a string"⟩) := by
  refine ⟨rfl, ?_, ?_⟩
  · intro s h
    have hs : s ≠ [] := by
      intro hc
      rw [hc] at h
      exact absurd h (by decide)
    unfold validateNotes
    rw [if_neg (by simp [truthy, hs])]
    rfl
  · intro v h1 h2
    cases v <;> simp_all [validateNotes, truthy, isString]

set_option maxRecDepth 100000 in
/-- Claim C8, witness: the documented truncation at a concrete 1001-unit
string. -/
theorem claim8_witness :
    validateNotes (.vStr (List.replicate 1001 97))
      = .ok (some (List.replicate 1000 97)) := by
  have h := claim8_notesTruncation.2.1 (List.replicate 1001 97) (by decide)
  rw [h]
  decide

/-! ## Claim C9: id validation -/

/-- Claim C9: `validateId` fails exactly when base-10 parsing of the
stringified input yields `NaN` or a value below 1; `"abc"`, `"0"` and
`"-5"` fail while `"7"` returns 7. -/
theorem claim9_idValidation :
    (∀ v : JSVal, (validateId v).isOk = false ↔
      (jsParseInt (jsToString v) = none ∨
       ∃ n : Int, jsParseInt (jsToString v) = some n ∧ n < 1)) ∧
    validateId (.vStr (jstr "abc")) = .error ⟨"Invalid ID"⟩ ∧
    validateId (.vStr (jstr "0")) = .error ⟨"Invalid ID"⟩ ∧
    validateId (.vStr (jstr "-5")) = .error ⟨"Invalid ID"⟩ ∧
    validateId (.vStr (jstr "7")) = .ok 7 := by
  refine ⟨?_, by decide, by decide, by decide, by decide⟩
  intro v
  unfold validateId
  cases hP : jsParseInt (jsToString v) with
  | none => simp [Except.isOk, Except.toBool]
  | some n =>
    by_cases hn : n < 1
    · simp [Except.isOk, Except.toBool, hn]
    · simp [Except.isOk, Except.toBool, hn]

/-- Claim C9, witness: the failure characterization applied at `"0"`. -/
theorem claim9_witness : (validateId (.vStr (jstr "0"))).isOk = false :=
  (claim9_idValidation.1 (.vStr (jstr "0"))).mpr
    (Or.inr ⟨0, by decide, by decide⟩)

/-! ## Claim C10: all falsy notes collapse to null -/

/-- Claim C10: `validateNotes` returns `null` for every falsy input — the
empty string included — so an omitted notes field and an empty notes field
are indistinguishable downstream. -/
theorem claim10_falsyNotesNull :
    (∀ v, truthy v = false → validateNotes v = .ok none) ∧
    validateNotes (.vStr []) = .ok none := by
  constructor
  · intro v h
    unfold validateNotes
    rw [if_pos (by simp [h])]
  · rfl

/-- Claim C10, witness: the falsy collapse applied at `undefined`. -/
theorem claim10_witness : validateNotes .vUndef = .ok none :=
  claim10_falsyNotesNull.1 .vUndef rfl

end TrackMe
